import Mathlib

/-!
Verification of the Evolu relay storage, task combinators, and configuration.

The development shallowly embeds the TypeScript sources:

- the relay SQLite storage (`createRelayStorage`): `validateWriteKey`,
  `writeMessages`, `readDbChange`;
- the `Task` combinators (`toTask`, `retry`, `createSemaphore`, `createMutex`);
- the default configuration (`defaultConfig`).

SQL tables become association lists keyed the way the table's primary key is
declared; SQL statements that can fail take an explicit error oracle (an
`Option SqliteError` telling whether that statement's execution fails), and
`onStorageError` callbacks become an explicit list of reported errors in the
result. `deps.sqlite.transaction` rolls back on the first failed inner
operation, so the embedding of `writeMessages` discards the intermediate state
whenever the loop returns an error.
-/

namespace Evolu

/-- Byte strings (owner ids, write keys, binary timestamps, ciphertexts). -/
abbrev Bytes : Type := List Nat

/-- An opaque SQLite error, as produced by the `Sqlite` dependency. -/
structure SqliteError where
  code : Nat
deriving DecidableEq, Repr

/-- State of the relay storage's SQLite database: the `evolu_writeKey` table
(primary key `ownerId`), the `evolu_message` table (primary key
`(ownerId, timestamp)`), and the `evolu_timestamp` index maintained by the
SQLite storage base (same key set as `evolu_message`). -/
structure RelayState where
  writeKeys : List (Bytes × Bytes)
  messages : List (Bytes × Bytes × Bytes)
  timestamps : List (Bytes × Bytes)
deriving DecidableEq, Repr

/-- The empty relay database, right after `createRelayStorage` created the
tables. -/
def emptyRelayState : RelayState :=
  { writeKeys := [], messages := [], timestamps := [] }

/-- `select writeKey from evolu_writeKey where ownerId = ${ownerId}`:
the first (and, `ownerId` being the primary key, only) row for `ownerId`. -/
def lookupWriteKey (st : RelayState) (ownerId : Bytes) : Option Bytes :=
  (st.writeKeys.find? (fun r => decide (r.1 = ownerId))).map (·.2)

/-- `deps.timingSafeEqual` (the `TimingSafeEqualDep` from `Crypto.ts`, outside
this repository's sources): functionally, byte-string equality. Its
constant-time execution is a timing property invisible to this embedding. -/
def timingSafeEqual (a b : Bytes) : Bool :=
  decide (a = b)

/-- Error oracles for the two SQL statements `validateWriteKey` executes:
`some e` means that statement fails with `e`. -/
structure VwkOracle where
  selectError : Option SqliteError
  insertError : Option SqliteError
deriving Repr

/-- The oracle under which every SQL statement succeeds. -/
def vwkOk : VwkOracle :=
  { selectError := none, insertError := none }

/-- `validateWriteKey(ownerId, writeKey)` of the relay storage
(`createRelayStorage`): select the stored key; on select failure report and
return `false`; if no row exists, insert `(ownerId, writeKey)` (reporting and
returning `false` on insert failure) and return `true`; otherwise
`timingSafeEqual` the stored row's key with the presented one. Returns
(result, database state after the call, errors passed to `onStorageError`). -/
def validateWriteKey (oracle : VwkOracle) (st : RelayState)
    (ownerId writeKey : Bytes) : Bool × RelayState × List SqliteError :=
  match oracle.selectError with
  | some e => (false, st, [e])
  | none =>
    match lookupWriteKey st ownerId with
    | none =>
      match oracle.insertError with
      | some e => (false, st, [e])
      | none =>
        (true, { st with writeKeys := st.writeKeys ++ [(ownerId, writeKey)] },
          [])
    | some stored => (timingSafeEqual stored writeKey, st, [])

/-- `readDbChange(ownerId, timestamp)` of the relay storage: select the
`change` of the row keyed `(ownerId, timestamp)` in `evolu_message`; on select
failure report the error and return `null`; otherwise return
`rows[0]?.change` (the first matching row's change, or nothing). -/
def readDbChange (selectError : Option SqliteError) (st : RelayState)
    (ownerId timestamp : Bytes) : Option Bytes × List SqliteError :=
  match selectError with
  | some e => (none, [e])
  | none =>
    ((st.messages.find?
        (fun r => decide (r.1 = ownerId ∧ r.2.1 = timestamp))).map (·.2.2),
      [])

/-- A message as handed to `writeMessages`: its timestamp (already in the
16-byte binary form produced by `timestampToBinaryTimestamp`) and its
encrypted change. -/
structure Message where
  timestamp : Bytes
  change : Bytes
deriving DecidableEq, Repr

/-- Modelled from the spec: `insertTimestamp` of `createSqliteStorageBase`
(`Storage.ts`, not among this repository's sources). The spec's
`timestamp(ownerId, timestamp)` table has the same key set as the message
table, and duplicate `(ownerId, timestamp)` rows are silently skipped, so the
insert adds the pair to the index unless it is already present. -/
def insertTimestamp (st : RelayState) (ownerId timestamp : Bytes) :
    RelayState :=
  if (ownerId, timestamp) ∈ st.timestamps then st
  else { st with timestamps := st.timestamps ++ [(ownerId, timestamp)] }

/-- `insert into evolu_message ... on conflict do nothing`: add the row unless
a row with primary key `(ownerId, timestamp)` already exists. -/
def insertMessage (st : RelayState) (ownerId timestamp change : Bytes) :
    RelayState :=
  if st.messages.any (fun r => decide (r.1 = ownerId ∧ r.2.1 = timestamp)) then
    st
  else { st with messages := st.messages ++ [(ownerId, timestamp, change)] }

/-- One successful iteration of the `writeMessages` loop: insert the message's
timestamp into the index, then the message row (skipping a duplicate). -/
def writeStep (ownerId : Bytes) (st : RelayState) (m : Message) : RelayState :=
  insertMessage (insertTimestamp st ownerId m.timestamp) ownerId m.timestamp
    m.change

/-- The loop inside `deps.sqlite.transaction` of `writeMessages`. The two
oracle lists give, positionally, whether the `insertTimestamp` and the message
insert of each iteration fail; the loop returns the first error, else the
state with every message applied. -/
def writeMessagesGo (ownerId : Bytes) :
    List (Option SqliteError) → List (Option SqliteError) → List Message →
    RelayState → Except SqliteError RelayState
  | _, _, [], st => .ok st
  | ft, fm, m :: rest, st =>
    match ft.headD none with
    | some e => .error e
    | none =>
      match fm.headD none with
      | some e => .error e
      | none =>
        writeMessagesGo ownerId ft.tail fm.tail rest (writeStep ownerId st m)

/-- `writeMessages(ownerId, messages)` of the relay storage: run the insert
loop inside `deps.sqlite.transaction`, which (per the `Sqlite` contract,
modelled from the spec: `transaction` rolls back on the first failed inner
operation) discards all inner writes when the closure returns an error. On
error, report it via `onStorageError` and return `false`; else `true`. -/
def writeMessages (ft fm : List (Option SqliteError)) (ownerId : Bytes)
    (messages : List Message) (st : RelayState) :
    Bool × RelayState × List SqliteError :=
  match writeMessagesGo ownerId ft fm messages st with
  | .error e => (false, st, [e])
  | .ok st1 => (true, st1, [])

/-- Lexicographic (`memcmp`) strict order on byte strings; binary timestamps
compare this way. -/
def bytesLt : Bytes → Bytes → Bool
  | [], [] => false
  | [], _ :: _ => true
  | _ :: _, [] => false
  | a :: as, b :: bs => if a < b then true else if b < a then false
    else bytesLt as bs

/-- Membership of a byte string in the half-open range `[lo, hi)`. -/
def inRange (lo hi ts : Bytes) : Bool :=
  !bytesLt ts lo && bytesLt ts hi

/-- Modelled from the spec: `getSize(ownerId, range)` of the SQLite storage
base (`Storage.ts`, not among this repository's sources): the number of
timestamps of `ownerId` within `[lo, hi)`. -/
def getSize (st : RelayState) (ownerId lo hi : Bytes) : Nat :=
  (st.timestamps.filter
    (fun r => decide (r.1 = ownerId) && inRange lo hi r.2)).length

/-- Modelled from the spec: `fingerprint(ownerId, range)` of the SQLite
storage base (`Storage.ts`, not among this repository's sources): the XOR of
`H(timestamp)` over all timestamps of `ownerId` in the range, for a keyed
hash `H` (kept abstract as a parameter). -/
def fingerprint (H : Bytes → Nat) (st : RelayState) (ownerId lo hi : Bytes) :
    Nat :=
  ((st.timestamps.filter
    (fun r => decide (r.1 = ownerId) && inRange lo hi r.2)).map
      (fun r => H r.2)).foldl Nat.xor 0

/-! ### Task.ts: `toTask` -/

/-- An `AbortSignal` as `toTask` inspects it: whether it is already aborted,
and its abort reason (JS `unknown`, kept abstract as `R`). -/
structure AbortSignalModel (R : Type) where
  aborted : Bool
  reason : R
deriving Repr

/-- A `TaskContext`: an optional signal. -/
structure TaskContextModel (R : Type) where
  signal : Option (AbortSignalModel R)
deriving Repr

/-- The `AbortError` result of a cancelled task, carrying the signal's abort
reason. -/
structure AbortErrorModel (R : Type) where
  reason : R
deriving Repr

/-- `toTask(fn)` invoked at a context. `fn` is the wrapped async function,
modelled by its result; `abortWinsRace` resolves the nondeterminism of the
`Promise.race` between `fn(context)` and a mid-flight abort of the signal
(`true` only when the signal aborts before `fn` settles). Returns the task's
result together with whether `fn` was invoked. Per the source: without a
signal, `fn()` is returned directly (the fast path); with an already-aborted
signal, `err AbortError` with the signal's reason is returned and `fn` is
never called; otherwise `fn(context)` races the abort listener. -/
def toTask {T E R : Type} (fn : Option (TaskContextModel R) → Except E T)
    (abortWinsRace : Bool) (context : Option (TaskContextModel R)) :
    Except (E ⊕ AbortErrorModel R) T × Bool :=
  match context with
  | none => ((fn none).mapError Sum.inl, true)
  | some c =>
    match c.signal with
    | none => ((fn none).mapError Sum.inl, true)
    | some s =>
      if s.aborted then (.error (.inr ⟨s.reason⟩), false)
      else if abortWinsRace then (.error (.inr ⟨s.reason⟩), true)
      else ((fn context).mapError Sum.inl, true)

/-! ### Task.ts: `retry` -/

/-- The `RetryError` wrapping the last failure after retries are exhausted or
the error is not retryable. -/
structure RetryErrorModel (E : Type) where
  cause : E
  attempts : Nat
deriving Repr, DecidableEq

/-- The delay computation of `retry` for a given (1-based) `attempt`, with the
source's JS number arithmetic carried out in `ℚ` and `rand` the value of
`Math.random()` for this attempt:
`exponentialDelay = initialDelayMs * factor ^ (attempt - 1)`,
`cappedDelay = min exponentialDelay maxDelayMs`,
`randomFactor = 1 - jitter + rand * jitter * 2`,
`delay = floor (cappedDelay * randomFactor)`. -/
def retryDelay (initialDelayMs maxDelayMs factor jitter : ℚ) (attempt : Nat)
    (rand : ℚ) : ℤ :=
  let exponentialDelay := initialDelayMs * factor ^ (attempt - 1)
  let cappedDelay := min exponentialDelay maxDelayMs
  let randomFactor := 1 - jitter + rand * jitter * 2
  ⌊cappedDelay * randomFactor⌋

/-- The `while (true)` loop of `retry`, with the default options
(`initialDelay = "100ms"`, `maxDelay = "10s"`, `factor = 2`, `jitter = 0.1`).
`task i` is the result of the `i`-th invocation of the wrapped task (0-based);
`rand i` is the `Math.random()` drawn before the `(i+1)`-th retry. `fuel`
bounds the recursion; `maxRetries + 1 - attempt` invocations always suffice,
so the driver below never hits the `none` fuel case. Returns the task's
overall result (`none` only on fuel exhaustion) and the list of delays waited
before the successive retry attempts. -/
def retryGo {T E : Type} (retryable : E → Bool) (rand : Nat → ℚ)
    (task : Nat → Except E T) (maxRetries : Nat) :
    Nat → Nat → Option (Except (RetryErrorModel E) T) × List ℤ
  | _, 0 => (none, [])
  | attempt, fuel + 1 =>
    match task attempt with
    | .ok v => (some (.ok v), [])
    | .error e =>
      let a1 := attempt + 1
      if a1 > maxRetries || !retryable e then
        (some (.error ⟨e, a1⟩), [])
      else
        let delay := retryDelay 100 10000 2 (1 / 10) a1 (rand (a1 - 1))
        let rest := retryGo retryable rand task maxRetries a1 fuel
        (rest.1, delay :: rest.2)

/-- `retry` with the default options: run the loop from `attempt = 0` with
enough fuel for the `maxRetries + 1` possible task invocations. -/
def retryDefault {T E : Type} (retryable : E → Bool) (rand : Nat → ℚ)
    (task : Nat → Except E T) (retries : Nat) :
    Option (Except (RetryErrorModel E) T) × List ℤ :=
  retryGo retryable rand task retries 0 (retries + 1)

/-! ### Task.ts: `createSemaphore` / `createMutex` -/

/-- The observable counters of a semaphore created by
`createSemaphore(maxConcurrent)`: `permits` is `availablePermits`, `waiting`
the length of `waitingQueue`, and `holders` the number of tasks that have
completed `acquire()` and not yet run `release()`. -/
structure SemState where
  permits : Nat
  waiting : Nat
  holders : Nat
deriving DecidableEq, Repr

/-- The semaphore right after `createSemaphore(maxConcurrent)`. -/
def semInit (maxConcurrent : Nat) : SemState :=
  { permits := maxConcurrent, waiting := 0, holders := 0 }

/-- The two state-changing events of a semaphore's life under `withPermit`
interleavings: a task calling `acquire()` and a task calling `release()`. -/
inductive SemEvent where
  | acquire
  | release
deriving DecidableEq, Repr

/-- One semaphore transition, following the source: `acquire` decrements
`availablePermits` when positive (the caller becomes a holder) and otherwise
pushes the caller onto `waitingQueue`; `release` pops and resumes a waiter
when the queue is nonempty (the waiter becomes a holder in the releaser's
stead) and otherwise increments `availablePermits`. -/
def semStep (s : SemState) : SemEvent → SemState
  | .acquire =>
    if 0 < s.permits then
      { s with permits := s.permits - 1, holders := s.holders + 1 }
    else { s with waiting := s.waiting + 1 }
  | .release =>
    if 0 < s.waiting then { s with waiting := s.waiting - 1 }
    else { s with permits := s.permits + 1, holders := s.holders - 1 }

/-- Run a sequence of semaphore events. -/
def semRun (s : SemState) (es : List SemEvent) : SemState :=
  es.foldl semStep s

/-- A trace is valid when every `release` is performed by a current holder:
`release()` only runs after the releasing task's `withPermit` body finished,
which requires that task to hold a permit. -/
def semValid (s : SemState) : List SemEvent → Bool
  | [] => true
  | e :: rest =>
    (match e with
      | SemEvent.acquire => true
      | SemEvent.release => 0 < s.holders) &&
    semValid (semStep s e) rest

/-! ### Config.ts: `defaultConfig` -/

/-- The `Config` interface fields that `defaultConfig` populates.
`name` is a `SimpleName` (a validated branded string from `Type.ts`, outside
this repository's sources), carried here as its underlying string. -/
structure Config where
  name : String
  syncUrl : String
  reloadUrl : String
  maxDrift : Nat
  enableLogging : Bool
deriving DecidableEq, Repr

/-- `defaultConfig` from `Config.ts`:
`getOrThrow(SimpleName.fromParent("Evolu"))` yields the string `"Evolu"`. -/
def defaultConfig : Config :=
  { name := "Evolu"
    syncUrl := "https://free.evoluhq.com"
    reloadUrl := "/"
    maxDrift := 5 * 60 * 1000
    enableLogging := false }

/-! ### Theorems -/

/-- Claim C8: the default configuration has name `"Evolu"`, syncUrl
`"https://free.evoluhq.com"`, and maxDrift 300000 ms. -/
theorem defaultConfig_values :
    defaultConfig.name = "Evolu" ∧
    defaultConfig.syncUrl = "https://free.evoluhq.com" ∧
    defaultConfig.maxDrift = 300000 :=
  ⟨rfl, rfl, rfl⟩

/-- Claim C1: on the success path of `validateWriteKey`, if no writeKey row
exists for `ownerId` the pair is recorded and the call returns `true`; if a
row with stored key `sk` exists, the call returns `true` iff `sk` equals the
presented key, and the writeKey table is left unchanged. -/
theorem validateWriteKey_correct (st : RelayState) (o k : Bytes) :
    (lookupWriteKey st o = none →
      validateWriteKey vwkOk st o k =
        (true, { st with writeKeys := st.writeKeys ++ [(o, k)] }, [])) ∧
    (∀ sk, lookupWriteKey st o = some sk →
      ((validateWriteKey vwkOk st o k).1 = true ↔ sk = k) ∧
      (validateWriteKey vwkOk st o k).2.1 = st ∧
      (validateWriteKey vwkOk st o k).2.2 = []) := by
  constructor
  · intro h
    simp [validateWriteKey, vwkOk, h]
  · intro sk h
    simp [validateWriteKey, vwkOk, h, timingSafeEqual]

/-- Witness for claim C1: registering a fresh owner succeeds and records the
pair; a mismatched key against a stored row is rejected with the row kept. -/
theorem validateWriteKey_correct_witness :
    validateWriteKey vwkOk emptyRelayState [1] [7] =
      (true, { writeKeys := [([1], [7])], messages := [], timestamps := [] },
        []) ∧
    (validateWriteKey vwkOk
        { writeKeys := [([1], [7])], messages := [], timestamps := [] }
        [1] [9]).1 = false := by
  constructor
  · have h := (validateWriteKey_correct emptyRelayState [1] [7]).1 (by decide)
    simpa [emptyRelayState] using h
  · have h :=
      ((validateWriteKey_correct
          { writeKeys := [([1], [7])], messages := [], timestamps := [] }
          [1] [9]).2 [7] (by decide)).1
    revert h
    cases hb : (validateWriteKey vwkOk
        { writeKeys := [([1], [7])], messages := [], timestamps := [] }
        [1] [9]).1 <;> simp

/-- Claim C10: `validateWriteKey` fails closed on storage errors: if the
select of the stored key fails, or the owner is unknown and the registering
insert fails, the error is reported via `onStorageError` and the call returns
`false`, with the database left unchanged. -/
theorem validateWriteKey_failClosed (oracle : VwkOracle) (st : RelayState)
    (o k : Bytes) :
    (∀ e, oracle.selectError = some e →
      validateWriteKey oracle st o k = (false, st, [e])) ∧
    (∀ e, oracle.selectError = none → lookupWriteKey st o = none →
      oracle.insertError = some e →
      validateWriteKey oracle st o k = (false, st, [e])) := by
  constructor
  · intro e h
    simp [validateWriteKey, h]
  · intro e hs hl hi
    simp [validateWriteKey, hs, hl, hi]

/-- Witness for claim C10: a failing select and a failing registering insert
both deny the write and report the error. -/
theorem validateWriteKey_failClosed_witness :
    validateWriteKey { selectError := some ⟨3⟩, insertError := none }
      emptyRelayState [1] [7] = (false, emptyRelayState, [⟨3⟩]) ∧
    validateWriteKey { selectError := none, insertError := some ⟨4⟩ }
      emptyRelayState [1] [7] = (false, emptyRelayState, [⟨4⟩]) := by
  constructor
  · exact (validateWriteKey_failClosed
      { selectError := some ⟨3⟩, insertError := none }
      emptyRelayState [1] [7]).1 ⟨3⟩ rfl
  · exact (validateWriteKey_failClosed
      { selectError := none, insertError := some ⟨4⟩ }
      emptyRelayState [1] [7]).2 ⟨4⟩ rfl (by decide) rfl

/-- The message table has at most one row per `(ownerId, timestamp)` key, as
enforced by the `evolu_message` primary key. -/
def WellFormedMessages (st : RelayState) : Prop :=
  st.messages.Pairwise (fun a b => ¬(a.1 = b.1 ∧ a.2.1 = b.2.1))

/-- Claim C5: on the success path and a key-unique message table,
`readDbChange(ownerId, timestamp)` returns exactly the stored ciphertext of
the row keyed `(ownerId, timestamp)`, and nothing when no such row exists. -/
theorem readDbChange_correct (st : RelayState) (o ts : Bytes)
    (h : WellFormedMessages st) :
    ∀ c, (readDbChange none st o ts).1 = some c ↔ (o, ts, c) ∈ st.messages := by
  intro c
  have hsym : ∀ a b : Bytes × Bytes × Bytes,
      ¬(a.1 = b.1 ∧ a.2.1 = b.2.1) → ¬(b.1 = a.1 ∧ b.2.1 = a.2.1) := by
    intro a b hab hcon
    exact hab ⟨hcon.1.symm, hcon.2.symm⟩
  simp only [readDbChange, Option.map_eq_some']
  constructor
  · rintro ⟨r, hr, hrc⟩
    have hmem := List.mem_of_find?_eq_some hr
    have hpred := List.find?_some hr
    rw [decide_eq_true_eq] at hpred
    obtain ⟨r1, r2, r3⟩ := r
    obtain ⟨h1, h2⟩ := hpred
    simp only at h1 h2 hrc
    subst h1; subst h2; subst hrc
    exact hmem
  · intro hmem
    cases hfind : st.messages.find? (fun r => decide (r.1 = o ∧ r.2.1 = ts)) with
    | none =>
      exfalso
      rw [List.find?_eq_none] at hfind
      exact absurd (by simp) (hfind _ hmem)
    | some r =>
      refine ⟨r, rfl, ?_⟩
      have hrmem := List.mem_of_find?_eq_some hfind
      have hpred := List.find?_some hfind
      rw [decide_eq_true_eq] at hpred
      obtain ⟨h1, h2⟩ := hpred
      have hforall := List.Pairwise.forall (fun a b hab => hsym a b hab) h
      by_cases heq : (o, ts, c) = r
      · rw [← heq]
      · exact absurd ⟨h1.symm, h2.symm⟩ (hforall hmem hrmem heq)

/-- Witness for claim C5: on a one-row table the stored ciphertext is
returned. -/
theorem readDbChange_correct_witness :
    (readDbChange none
      { writeKeys := [], messages := [([1], [2], [3])], timestamps := [] }
      [1] [2]).1 = some [3] :=
  (readDbChange_correct
    { writeKeys := [], messages := [([1], [2], [3])], timestamps := [] }
    [1] [2] (by simp [WellFormedMessages]) [3]).mpr (by simp)

/-- Claim C9: a task built with `toTask`, invoked without a context or with a
context lacking a signal, yields exactly the wrapped function's result (with
`fn` invoked) and never an `AbortError`; invoked with an already-aborted
signal it yields `err AbortError` carrying the signal's abort reason, without
ever invoking the wrapped function. -/
theorem toTask_context_behavior {T E R : Type}
    (fn : Option (TaskContextModel R) → Except E T) (abortWinsRace : Bool)
    (context : Option (TaskContextModel R)) :
    ((context = none ∨ ∃ c, context = some c ∧ c.signal = none) →
      toTask fn abortWinsRace context = ((fn none).mapError Sum.inl, true) ∧
      ∀ ab, (toTask fn abortWinsRace context).1 ≠ .error (Sum.inr ab)) ∧
    (∀ c s, context = some c → c.signal = some s → s.aborted = true →
      toTask fn abortWinsRace context = (.error (.inr ⟨s.reason⟩), false)) := by
  have hNoAbort : ∀ ab : AbortErrorModel R,
      ((fn none).mapError (Sum.inl : E → E ⊕ AbortErrorModel R)) ≠
        .error (Sum.inr ab) := by
    intro ab
    cases fn none <;> simp [Except.mapError]
  constructor
  · rintro (rfl | ⟨c, rfl, hsig⟩)
    · exact ⟨rfl, hNoAbort⟩
    · refine ⟨?_, ?_⟩
      · simp [toTask, hsig]
      · intro ab
        simp only [toTask, hsig]
        exact hNoAbort ab
  · rintro c s rfl hsig habort
    simp [toTask, hsig, habort]

/-- Witness for claim C9: a context-free invocation passes the wrapped result
through; an already-aborted signal yields `AbortError` with the abort reason
and the function body is not invoked. -/
theorem toTask_context_behavior_witness :
    toTask (T := Nat) (E := Nat) (R := Nat) (fun _ => .ok 5) false none =
      (.ok 5, true) ∧
    toTask (T := Nat) (E := Nat) (R := Nat) (fun _ => .ok 5) false
      (some { signal := some { aborted := true, reason := 7 } }) =
      (.error (.inr ⟨7⟩), false) := by
  constructor
  · exact ((toTask_context_behavior (fun _ => .ok 5) false none).1
      (Or.inl rfl)).1
  · exact (toTask_context_behavior (fun _ => .ok 5) false
      (some { signal := some { aborted := true, reason := 7 } })).2
      { signal := some { aborted := true, reason := 7 } }
      { aborted := true, reason := 7 } rfl rfl rfl

theorem getD_zero_eq_headD {α : Type} (l : List α) (d : α) :
    l.getD 0 d = l.head?.getD d := by
  cases l <;> simp [List.getD]

theorem getD_succ_eq_tail_getD {α : Type} (l : List α) (j : Nat) (d : α) :
    l.getD (j + 1) d = l.tail.getD j d := by
  cases l <;> simp [List.getD]

theorem writeMessagesGo_error_of_fail (o : Bytes) :
    ∀ (msgs : List Message) (ft fm : List (Option SqliteError))
      (st : RelayState) (i : Nat), i < msgs.length →
      (ft.getD i none ≠ none ∨ fm.getD i none ≠ none) →
      ∃ e, writeMessagesGo o ft fm msgs st = .error e := by
  intro msgs
  induction msgs with
  | nil =>
    intro ft fm st i hi _
    simp at hi
  | cons m rest ih =>
    intro ft fm st i hi hfail
    cases hft : ft.headD none with
    | some e =>
      rw [List.headD_eq_head?_getD] at hft
      exact ⟨e, by simp [writeMessagesGo, hft]⟩
    | none =>
      rw [List.headD_eq_head?_getD] at hft
      cases hfm : fm.headD none with
      | some e =>
        rw [List.headD_eq_head?_getD] at hfm
        exact ⟨e, by simp [writeMessagesGo, hft, hfm]⟩
      | none =>
        rw [List.headD_eq_head?_getD] at hfm
        cases i with
        | zero =>
          rcases hfail with hf | hf
          · exact absurd (by rw [getD_zero_eq_headD]; exact hft) hf
          · exact absurd (by rw [getD_zero_eq_headD]; exact hfm) hf
        | succ j =>
          have hfail' : ft.tail.getD j none ≠ none ∨
              fm.tail.getD j none ≠ none := by
            rw [← getD_succ_eq_tail_getD, ← getD_succ_eq_tail_getD]
            exact hfail
          obtain ⟨e, he⟩ := ih ft.tail fm.tail (writeStep o st m) j
            (by simpa using hi) hfail'
          exact ⟨e, by simp [writeMessagesGo, hft, hfm, he]⟩

/-- Claim C2: `writeMessages(ownerId, messages)` is atomic: if persisting any
message of the batch fails (a timestamp-index insert or a message insert
failing at any position inside the batch), no message is persisted, the state
observable through `readDbChange`, `getSize` and `fingerprint` is identical
before and after the call, and the call returns `false`. -/
theorem writeMessages_atomic (ft fm : List (Option SqliteError)) (o : Bytes)
    (msgs : List Message) (st : RelayState)
    (h : ∃ i, i < msgs.length ∧
      (ft.getD i none ≠ none ∨ fm.getD i none ≠ none)) :
    (writeMessages ft fm o msgs st).1 = false ∧
    (writeMessages ft fm o msgs st).2.1 = st ∧
    (∀ ts, readDbChange none (writeMessages ft fm o msgs st).2.1 o ts =
      readDbChange none st o ts) ∧
    (∀ lo hi, getSize (writeMessages ft fm o msgs st).2.1 o lo hi =
      getSize st o lo hi) ∧
    (∀ H lo hi, fingerprint H (writeMessages ft fm o msgs st).2.1 o lo hi =
      fingerprint H st o lo hi) := by
  obtain ⟨i, hi, hfail⟩ := h
  obtain ⟨e, he⟩ := writeMessagesGo_error_of_fail o msgs ft fm st i hi hfail
  simp [writeMessages, he]

/-- Witness for claim C2: a batch whose first timestamp-index insert fails is
rolled back entirely and reported as `false`. -/
theorem writeMessages_atomic_witness :
    (writeMessages [some ⟨5⟩] [] [1] [⟨[2], [3]⟩] emptyRelayState).1 = false ∧
    (writeMessages [some ⟨5⟩] [] [1] [⟨[2], [3]⟩] emptyRelayState).2.1 =
      emptyRelayState := by
  have h := writeMessages_atomic [some ⟨5⟩] [] [1] [⟨[2], [3]⟩]
    emptyRelayState ⟨0, by decide, Or.inl (by decide)⟩
  exact ⟨h.1, h.2.1⟩

/-- The pure effect of a successful `writeMessages` loop: fold `writeStep`
over the batch. -/
def applyMessages (o : Bytes) (msgs : List Message) (st : RelayState) :
    RelayState :=
  msgs.foldl (writeStep o) st

/-- The `(ownerId, timestamp)` pair is present in the timestamp index. -/
def hasTs (st : RelayState) (o ts : Bytes) : Prop :=
  (o, ts) ∈ st.timestamps

/-- A message row with key `(ownerId, timestamp)` is present, phrased as the
`any` test `insertMessage` performs. -/
def hasMsgKey (st : RelayState) (o ts : Bytes) : Bool :=
  st.messages.any (fun r => decide (r.1 = o ∧ r.2.1 = ts))

theorem insertTimestamp_messages (st : RelayState) (o ts : Bytes) :
    (insertTimestamp st o ts).messages = st.messages := by
  unfold insertTimestamp
  split <;> rfl

theorem insertMessage_timestamps (st : RelayState) (o ts c : Bytes) :
    (insertMessage st o ts c).timestamps = st.timestamps := by
  unfold insertMessage
  split <;> rfl

theorem writeMessagesGo_noFail (o : Bytes) :
    ∀ (msgs : List Message) (st : RelayState),
      writeMessagesGo o [] [] msgs st = .ok (applyMessages o msgs st) := by
  intro msgs
  induction msgs with
  | nil => intro st; rfl
  | cons m rest ih =>
    intro st
    show writeMessagesGo o [] [] rest (writeStep o st m) = _
    rw [ih]
    rfl

theorem writeStep_hasTs_mono (o' : Bytes) (m : Message) (st : RelayState)
    (o ts : Bytes) (h : hasTs st o ts) : hasTs (writeStep o' st m) o ts := by
  show (o, ts) ∈ (insertMessage _ _ _ _).timestamps
  rw [insertMessage_timestamps]
  unfold insertTimestamp
  split
  · exact h
  · exact List.mem_append.mpr (Or.inl h)

theorem writeStep_hasMsg_mono (o' : Bytes) (m : Message) (st : RelayState)
    (o ts : Bytes) (h : hasMsgKey st o ts = true) :
    hasMsgKey (writeStep o' st m) o ts = true := by
  have hbase : hasMsgKey (insertTimestamp st o' m.timestamp) o ts = true := by
    unfold hasMsgKey
    rw [insertTimestamp_messages]
    exact h
  show hasMsgKey (insertMessage _ _ _ _) o ts = true
  unfold insertMessage
  split
  · exact hbase
  · unfold hasMsgKey at hbase ⊢
    simp only [List.any_append]
    rw [hbase]
    rfl

theorem writeStep_hasTs_self (o : Bytes) (st : RelayState) (m : Message) :
    hasTs (writeStep o st m) o m.timestamp := by
  show (o, m.timestamp) ∈ (insertMessage _ _ _ _).timestamps
  rw [insertMessage_timestamps]
  unfold insertTimestamp
  split
  · assumption
  · exact List.mem_append.mpr (Or.inr (by simp))

theorem writeStep_hasMsg_self (o : Bytes) (st : RelayState) (m : Message) :
    hasMsgKey (writeStep o st m) o m.timestamp = true := by
  show hasMsgKey (insertMessage _ _ _ _) o m.timestamp = true
  unfold insertMessage
  split
  · next hcond => exact hcond
  · unfold hasMsgKey
    simp

theorem applyMessages_hasTs_mono (o' : Bytes) (msgs : List Message) :
    ∀ (st : RelayState) (o ts : Bytes), hasTs st o ts →
      hasTs (applyMessages o' msgs st) o ts := by
  induction msgs with
  | nil => intro st o ts h; exact h
  | cons m rest ih =>
    intro st o ts h
    exact ih (writeStep o' st m) o ts (writeStep_hasTs_mono o' m st o ts h)

theorem applyMessages_hasMsg_mono (o' : Bytes) (msgs : List Message) :
    ∀ (st : RelayState) (o ts : Bytes), hasMsgKey st o ts = true →
      hasMsgKey (applyMessages o' msgs st) o ts = true := by
  induction msgs with
  | nil => intro st o ts h; exact h
  | cons m rest ih =>
    intro st o ts h
    exact ih (writeStep o' st m) o ts (writeStep_hasMsg_mono o' m st o ts h)

theorem applyMessages_sets (o : Bytes) (msgs : List Message) :
    ∀ (st : RelayState) (m : Message), m ∈ msgs →
      hasTs (applyMessages o msgs st) o m.timestamp ∧
      hasMsgKey (applyMessages o msgs st) o m.timestamp = true := by
  induction msgs with
  | nil => intro st m h; simp at h
  | cons x rest ih =>
    intro st m h
    rcases List.mem_cons.mp h with rfl | hrest
    · constructor
      · exact applyMessages_hasTs_mono o rest (writeStep o st m) o m.timestamp
          (writeStep_hasTs_self o st m)
      · exact applyMessages_hasMsg_mono o rest (writeStep o st m) o
          m.timestamp (writeStep_hasMsg_self o st m)
    · exact ih (writeStep o st x) m hrest

theorem writeStep_id (o : Bytes) (st : RelayState) (m : Message)
    (h1 : hasTs st o m.timestamp) (h2 : hasMsgKey st o m.timestamp = true) :
    writeStep o st m = st := by
  unfold writeStep
  have ht : insertTimestamp st o m.timestamp = st := by
    unfold insertTimestamp
    rw [if_pos (show (o, m.timestamp) ∈ st.timestamps from h1)]
  rw [ht]
  unfold insertMessage
  rw [if_pos (show (st.messages.any
    fun r => decide (r.1 = o ∧ r.2.1 = m.timestamp)) = true from h2)]

theorem applyMessages_id (o : Bytes) (msgs : List Message) :
    ∀ st : RelayState,
      (∀ m ∈ msgs, hasTs st o m.timestamp ∧
        hasMsgKey st o m.timestamp = true) →
      applyMessages o msgs st = st := by
  induction msgs with
  | nil => intro st _; rfl
  | cons m rest ih =>
    intro st h
    have hm := h m (by simp)
    have hstep : writeStep o st m = st := writeStep_id o st m hm.1 hm.2
    show applyMessages o rest (writeStep o st m) = st
    rw [hstep]
    exact ih st (fun m' hm' => h m' (by simp [hm']))

/-- Claim C3: `writeMessages` is idempotent on the success path: applying a
batch twice leaves the storage state (message table and timestamp index)
identical to applying it once — duplicate `(ownerId, timestamp)` rows being
silently skipped — and both calls return `true`. -/
theorem writeMessages_idempotent (o : Bytes) (msgs : List Message)
    (st : RelayState) :
    (writeMessages [] [] o msgs st).1 = true ∧
    (writeMessages [] [] o msgs (writeMessages [] [] o msgs st).2.1).1 =
      true ∧
    (writeMessages [] [] o msgs (writeMessages [] [] o msgs st).2.1).2.1 =
      (writeMessages [] [] o msgs st).2.1 := by
  have h1 : writeMessages [] [] o msgs st =
      (true, applyMessages o msgs st, []) := by
    simp [writeMessages, writeMessagesGo_noFail]
  have hidem : applyMessages o msgs (applyMessages o msgs st) =
      applyMessages o msgs st :=
    applyMessages_id o msgs (applyMessages o msgs st)
      (fun m hm => applyMessages_sets o msgs st m hm)
  rw [h1]
  simp [writeMessages, writeMessagesGo_noFail, hidem]

/-- The semaphore underlying `createMutex()`: `createSemaphore(1)`. -/
def mutexInit : SemState :=
  semInit 1

theorem semStep_preserves_sum (n : Nat) (s : SemState) (e : SemEvent)
    (he : (match e with
      | SemEvent.acquire => true
      | SemEvent.release => decide (0 < s.holders)) = true)
    (hsum : s.permits + s.holders = n) :
    (semStep s e).permits + (semStep s e).holders = n := by
  cases e with
  | acquire =>
    by_cases hp : 0 < s.permits <;> simp [semStep, hp] <;> omega
  | release =>
    rw [decide_eq_true_eq] at he
    by_cases hw : 0 < s.waiting <;> simp [semStep, hw] <;> omega

theorem semValid_cons (s : SemState) (e : SemEvent) (rest : List SemEvent) :
    semValid s (e :: rest) =
      ((match e with
        | SemEvent.acquire => true
        | SemEvent.release => decide (0 < s.holders)) &&
        semValid (semStep s e) rest) :=
  rfl

theorem semRun_sum (n : Nat) :
    ∀ (es : List SemEvent) (s : SemState), semValid s es = true →
      s.permits + s.holders = n →
      (semRun s es).permits + (semRun s es).holders = n := by
  intro es
  induction es with
  | nil => intro s _ hsum; exact hsum
  | cons e rest ih =>
    intro s hv hsum
    rw [semValid_cons, Bool.and_eq_true] at hv
    exact ih (semStep s e) hv.2 (semStep_preserves_sum n s e hv.1 hsum)

/-- Claim C6: for a semaphore created by `createSemaphore(maxConcurrent)` and
any valid interleaving of `withPermit` acquire/release events, the number of
tasks holding a permit never exceeds `maxConcurrent`; in particular a mutex
(`createMutex()`, a semaphore with one permit) never has two concurrent
holders under `withLock`. -/
theorem semaphore_concurrency_bound (maxConcurrent : Nat)
    (es : List SemEvent) (h : semValid (semInit maxConcurrent) es = true) :
    (semRun (semInit maxConcurrent) es).holders ≤ maxConcurrent ∧
    (∀ es', semValid mutexInit es' = true →
      (semRun mutexInit es').holders ≤ 1) := by
  constructor
  · have := semRun_sum maxConcurrent es (semInit maxConcurrent) h (by
      simp [semInit])
    omega
  · intro es' h'
    have := semRun_sum 1 es' mutexInit h' (by simp [mutexInit, semInit])
    omega

/-- Witness for claim C6: with two permits, a trace of two acquisitions and a
release never exceeds two holders. -/
theorem semaphore_concurrency_bound_witness :
    (semRun (semInit 2)
      [SemEvent.acquire, SemEvent.acquire, SemEvent.release]).holders ≤ 2 :=
  (semaphore_concurrency_bound 2
    [SemEvent.acquire, SemEvent.acquire, SemEvent.release] (by decide)).1

theorem retryGo_delays {T E : Type} (retryable : E → Bool) (rand : Nat → ℚ)
    (task : Nat → Except E T) (maxRetries : Nat)
    (hfail : ∀ i, ∃ e, task i = .error e ∧ retryable e = true) :
    ∀ (fuel attempt : Nat), attempt + fuel = maxRetries + 1 →
      (retryGo retryable rand task maxRetries attempt fuel).2 =
        (List.range (maxRetries - attempt)).map
          (fun j => retryDelay 100 10000 2 (1 / 10) (attempt + 1 + j)
            (rand (attempt + j))) := by
  intro fuel
  induction fuel with
  | zero =>
    intro attempt h
    have : maxRetries - attempt = 0 := by omega
    simp [retryGo, this]
  | succ f ih =>
    intro attempt h
    obtain ⟨e, he, hr⟩ := hfail attempt
    by_cases hlast : attempt + 1 > maxRetries
    · have h0 : maxRetries - attempt = 0 := by omega
      simp [retryGo, he, hr, hlast, h0]
    · have hcond : (attempt + 1 > maxRetries || !retryable e) = false := by
        simp [hr]
        omega
      have hk : maxRetries - attempt = (maxRetries - (attempt + 1)) + 1 := by
        omega
      have hrec := ih (attempt + 1) (by omega)
      simp only [retryGo, he, hcond, Bool.false_eq_true, if_false]
      rw [hrec, hk, List.range_succ_eq_map, List.map_cons, List.map_map]
      rw [List.cons.injEq]
      refine ⟨?_, ?_⟩
      · norm_num
      · apply List.map_congr_left
        intro j _
        simp only [Function.comp]
        have h1 : attempt + 1 + 1 + j = attempt + 1 + (j + 1) := by omega
        have h2 : attempt + 1 + j = attempt + (j + 1) := by omega
        rw [h1, h2]

/-- Claim C4: under the default options, a task that keeps failing with a
retryable error waits before the `n`-th retry attempt (`1 ≤ n ≤ retries`) a
delay of `⌊min (100 * 2 ^ (n - 1)) 10000 * r⌋` milliseconds for a jitter
factor `r` with `0.9 ≤ r ≤ 1.1` — exponential backoff starting at 100 ms with
factor 2, capped at 10 s, with plus-or-minus 10 percent jitter. -/
theorem retry_default_backoff {T E : Type} (retryable : E → Bool)
    (rand : Nat → ℚ) (task : Nat → Except E T) (retries : Nat)
    (hfail : ∀ i, ∃ e, task i = .error e ∧ retryable e = true)
    (hrand : ∀ i, 0 ≤ rand i ∧ rand i < 1) :
    (retryDefault retryable rand task retries).2.length = retries ∧
    ∀ n, 1 ≤ n → n ≤ retries →
      ∃ r : ℚ, 9 / 10 ≤ r ∧ r ≤ 11 / 10 ∧
        (retryDefault retryable rand task retries).2.getD (n - 1) 0 =
          ⌊(min (100 * 2 ^ (n - 1)) 10000 : ℚ) * r⌋ := by
  have hdel := retryGo_delays retryable rand task retries hfail (retries + 1)
    0 (by omega)
  rw [Nat.sub_zero] at hdel
  unfold retryDefault
  rw [hdel]
  constructor
  · simp
  · intro n h1 hn
    refine ⟨1 - 1 / 10 + rand (n - 1) * (1 / 10) * 2, ?_, ?_, ?_⟩
    · have := (hrand (n - 1)).1
      linarith
    · have := (hrand (n - 1)).2
      linarith
    · have hlt : n - 1 < retries := by omega
      rw [List.getD_eq_getElem?_getD, List.getElem?_map,
        List.getElem?_range hlt]
      have harg : 0 + 1 + (n - 1) = n := by omega
      have harg2 : 0 + (n - 1) = n - 1 := by omega
      simp only [Option.map_some', Option.getD_some, harg, harg2]
      rfl

/-- Witness for claim C4: three retries of an always-failing task with the
random draw fixed at one half wait 100 ms before the first retry. -/
theorem retry_default_backoff_witness :
    (retryDefault (fun _ : Nat => true) (fun _ => (1 : ℚ) / 2)
      (fun _ => (Except.error 0 : Except Nat Nat)) 3).2.length = 3 ∧
    ∃ r : ℚ, 9 / 10 ≤ r ∧ r ≤ 11 / 10 ∧
      (retryDefault (fun _ : Nat => true) (fun _ => (1 : ℚ) / 2)
        (fun _ => (Except.error 0 : Except Nat Nat)) 3).2.getD 0 0 =
        ⌊(min (100 * 2 ^ 0) 10000 : ℚ) * r⌋ := by
  have h := retry_default_backoff (fun _ : Nat => true) (fun _ => (1 : ℚ) / 2)
    (fun _ => (Except.error 0 : Except Nat Nat)) 3
    (fun _ => ⟨0, rfl, rfl⟩) (fun _ => ⟨by norm_num, by norm_num⟩)
  exact ⟨h.1, by simpa using h.2 1 le_rfl (by norm_num)⟩

end Evolu
